import Mathlib

/-!
Verification development for the yt-play utility (src/src/main.rs).

The program resolves a playlist URL to an identifier (`extract_id`),
caches audio files in a per-identifier directory, reconciles the cache
against the current playlist (`download_songs`), and hands off playback.
Below, the reconciliation core, identifier extraction and the
orchestration decision of `run` are embedded as pure Lean functions;
filesystem and subprocess effects are made explicit as data
(lists of file names, exit codes, traces).
-/

deriving instance DecidableEq for Except

namespace YtPlay

/-- One playlist entry, mirroring `struct Song { id, title }`. -/
structure Song where
  id : String
  title : String
deriving DecidableEq, Repr

/-- A directory entry's file name as seen by `download_songs`.
`path.file_name().and_then(|name| name.to_str())` yields a UTF-8 string
or fails; a name that is not valid UTF-8 is represented opaquely by a
numeric tag, since the code never inspects its bytes. -/
inductive FsName where
  | utf8 (name : String)
  | nonUtf8 (tag : Nat)
deriving DecidableEq, Repr

/-- Whether `pat` occurs at the start of `hay` (character lists). -/
def startsWithList : List Char → List Char → Bool
  | _, [] => true
  | [], _ :: _ => false
  | c :: cs, p :: ps => c == p && startsWithList cs ps

/-- Whether `pat` occurs somewhere inside `hay` (character lists);
mirrors Rust `str::contains` with a string pattern. -/
def containsList : List Char → List Char → Bool
  | [], pat => startsWithList [] pat
  | c :: rest, pat => startsWithList (c :: rest) pat || containsList rest pat

/-- The test `filename.contains(id)` from the scan loop of `download_songs`. -/
def containsSub (hay pat : String) : Bool :=
  containsList hay.data pat.data

/-- The deduplicated identifier collection
`let valid_ids: HashSet<&String> = songs.iter().map(|s| &s.id).collect()`.
`HashSet` iteration order is unspecified in Rust; the model fixes the
first-occurrence order of the song list (the accumulator is the set of
identifiers already seen). -/
def dedupIds (seen : List String) : List String → List String
  | [] => []
  | x :: xs => if seen.contains x then dedupIds seen xs else x :: dedupIds (x :: seen) xs

/-- The valid-identifier set of a desired entry sequence. -/
def validIds (songs : List Song) : List String :=
  dedupIds [] (songs.map Song.id)

/-- The inner loop `for id in &valid_ids { if filename.contains(*id) { ...
break; } }`: the first identifier (in iteration order) contained in the
file's name, or `none` for no match or a non-UTF-8 name (the `let Some
(filename) ... else { continue }` branch). -/
def fileMatch (ids : List String) : FsName → Option String
  | .utf8 name => ids.find? (fun id => containsSub name id)
  | .nonUtf8 _ => none

/-- The insertion `found_ids.insert(...)`: set-semantics insertion into the found set,
represented as a duplicate-free list. -/
def insertFound (id : String) (found : List String) : List String :=
  if found.contains id then found else found ++ [id]

/-- State of the directory scan: the found-identifier set and the files
kept in (resp. removed from) the directory so far. -/
structure ScanState where
  found : List String
  kept : List FsName
  deleted : List FsName
deriving DecidableEq, Repr

/-- One iteration of the `for path in files` loop of `download_songs`:
a non-UTF-8 name is skipped (the file stays on disk), a matching name
records its identifier as found and the file stays, a non-matching
UTF-8 name is deleted (`fs::remove_file`). -/
def scanFile (ids : List String) (st : ScanState) (f : FsName) : ScanState :=
  match fileMatch ids f with
  | some id => { st with kept := st.kept ++ [f], found := insertFound id st.found }
  | none =>
    match f with
    | .nonUtf8 tag => { st with kept := st.kept ++ [FsName.nonUtf8 tag] }
    | .utf8 name => { st with deleted := st.deleted ++ [FsName.utf8 name] }

/-- The whole directory scan of `download_songs`. -/
def scanFiles (ids : List String) (files : List FsName) : ScanState :=
  files.foldl (scanFile ids) ⟨[], [], []⟩

/-- The item URL written to the downloader's input stream for one
missing identifier: `https://www.youtube.com/watch?v={id}`. -/
def itemUrl (id : String) : String :=
  "https://www.youtube.com/watch?v=" ++ id

/-- Observable outcome of the pure part of `download_songs`: the
directory split into kept and deleted files, the missing entries
(`songs.iter().filter(|s| !found_ids.contains(&s.id))`), the batch of
item URLs fed to the downloader, and whether a downloader subprocess is
spawned at all (`if missing_ids.is_empty() { return Ok(()) }`). -/
structure ReconcileOutcome where
  keptFiles : List FsName
  deletedFiles : List FsName
  missingSongs : List Song
  missingIds : List String
  batchUrls : List String
  spawned : Bool
deriving DecidableEq, Repr

/-- The reconciliation logic of `download_songs` on a desired entry
sequence and the directory's file listing. -/
def downloadSongs (songs : List Song) (files : List FsName) : ReconcileOutcome :=
  let ids := validIds songs
  let st := scanFiles ids files
  let missing := songs.filter (fun s => !(st.found.contains s.id))
  { keptFiles := st.kept
    deletedFiles := st.deleted
    missingSongs := missing
    missingIds := missing.map Song.id
    batchUrls := (missing.map Song.id).map itemUrl
    spawned := !((missing.map Song.id).isEmpty) }

/-- Modelled from the spec: the external downloader, invoked in batch
mode, is configured with the output template `%(title)s [%(id)s].%(ext)s`
and writes one file named `<title> [<id>].<ext>` per item URL fed on its
input stream. The downloader binary is not part of this repository; this
definition follows the spec's description of its naming contract. -/
def downloaderOutput (missing : List Song) (ext : String) : List FsName :=
  missing.map (fun s => FsName.utf8 (s.title ++ " [" ++ s.id ++ "]." ++ ext))

/-- The cache directory contents after a successful `download_songs`
run: the files the scan kept plus the files the downloader wrote for the
missing entries. -/
def reconcileFull (songs : List Song) (files : List FsName) (ext : String) : List FsName :=
  let o := downloadSongs songs files
  o.keptFiles ++ downloaderOutput o.missingSongs ext

/-- End state of a `download_songs` call including the batch subprocess:
the directory contents afterwards, whether a subprocess was spawned, and
the propagated error, if any. -/
structure BatchRunResult where
  dirAfter : List FsName
  spawned : Bool
  error : Option String
deriving DecidableEq, Repr

/-- The function `download_songs` including the `child.wait()` check: `written` is
whatever files the external subprocess wrote before exiting with
`exitCode`. A non-zero exit yields the `PlaylistError` message
(the spec's `PartialDownloadFailure`); the files written stay on disk
in either case — there is no cleanup branch in the code. -/
def downloadSongsRun (songs : List Song) (files : List FsName)
    (written : List FsName) (exitCode : Nat) : BatchRunResult :=
  let o := downloadSongs songs files
  if o.spawned then
    if exitCode = 0 then
      { dirAfter := o.keptFiles ++ written, spawned := true, error := none }
    else
      { dirAfter := o.keptFiles ++ written, spawned := true,
        error := some "yt-dlp failed to download some files" }
  else
    { dirAfter := o.keptFiles, spawned := false, error := none }

/-- Trace of one invocation of `run`: whether the cache directory was
created, whether `update_playlist` (fetch + reconcile) ran, what the
scan deleted, the directory contents afterwards, and whether
`play_songs` was invoked. -/
structure RunTrace where
  createdDir : Bool
  fetchedAndReconciled : Bool
  deletions : List FsName
  dirAfter : List FsName
  played : Bool
deriving DecidableEq, Repr

/-- The decision logic of `run` after `get_playlist_directory`:
`if !fs::exists(dir) { create; update_playlist } else if refresh
{ update_playlist }` and then `play_songs` unconditionally. `songs` is
the entry list a fetch would return and `ext` the downloaded files'
extension (both only reach the trace on the two reconciling paths). -/
def runOrchestration (dirExists refresh : Bool) (songs : List Song)
    (dir : List FsName) (ext : String) : RunTrace :=
  if !dirExists then
    { createdDir := true
      fetchedAndReconciled := true
      deletions := (downloadSongs songs []).deletedFiles
      dirAfter := reconcileFull songs [] ext
      played := true }
  else if refresh then
    { createdDir := false
      fetchedAndReconciled := true
      deletions := (downloadSongs songs dir).deletedFiles
      dirAfter := reconcileFull songs dir ext
      played := true }
  else
    { createdDir := false
      fetchedAndReconciled := false
      deletions := []
      dirAfter := dir
      played := true }

/-- A parsed URL, abstracting the `url` crate's `Url`: the code only
ever looks at the query string, so only that part is modelled. `none`
means the URL has no query component. -/
structure ParsedUrl where
  query : Option String
deriving DecidableEq, Repr

/-- Hexadecimal digit value of a character, or `none`; code points 0-9
(48-57), a-f (97-102) and A-F (65-70) are the accepted digits. -/
def hexDigit (c : Char) : Option Nat :=
  let n := c.toNat
  if 48 ≤ n ∧ n ≤ 57 then some (n - 48)
  else if 97 ≤ n ∧ n ≤ 102 then some (n - 87)
  else if 65 ≤ n ∧ n ≤ 70 then some (n - 55)
  else none

/-- Modelled from the spec: the form-urlencoded decoding performed by
the `url` crate's `query_pairs` (an external dependency, not repository
code) — `+` decodes to a space and `%hh` to the character with that code
point; anything else is passed through. Multi-byte UTF-8 percent
sequences are out of scope of the claims and decode byte-wise here. -/
def percentDecode : List Char → List Char
  | [] => []
  | '+' :: rest => ' ' :: percentDecode rest
  | '%' :: h1 :: h2 :: rest2 =>
    (match hexDigit h1, hexDigit h2 with
     | some a, some b => Char.ofNat (16 * a + b) :: percentDecode rest2
     | _, _ => '%' :: percentDecode (h1 :: h2 :: rest2))
  | c :: rest => c :: percentDecode rest

/-- Split a character list on `&` into segments. -/
def splitAmp : List Char → List (List Char)
  | [] => [[]]
  | c :: rest =>
    if c = '&' then [] :: splitAmp rest
    else
      match splitAmp rest with
      | [] => [[c]]
      | seg :: segs => (c :: seg) :: segs

/-- Split one `key=value` segment at the first `=`; a segment without
`=` yields an empty value. -/
def splitEq : List Char → List Char × List Char
  | [] => ([], [])
  | c :: rest =>
    if c = '=' then ([], rest)
    else
      let (k, v) := splitEq rest
      (c :: k, v)

/-- Modelled from the spec: the `url` crate's `query_pairs` iterator
over a raw query string — split on `&`, drop empty segments, split each
segment at its first `=`, percent-decode key and value; pairs are
produced in encounter order. -/
def queryPairsOf (q : String) : List (String × String) :=
  ((splitAmp q.data).filter (fun seg => !seg.isEmpty)).map
    (fun seg =>
      let (k, v) := splitEq seg
      (String.mk (percentDecode k), String.mk (percentDecode v)))

/-- The query pairs of a parsed URL; a URL without a query component has
an empty pair iterator. -/
def ParsedUrl.pairs (u : ParsedUrl) : List (String × String) :=
  match u.query with
  | none => []
  | some q => queryPairsOf q

/-- The function `extract_id` from main.rs, on the result of `Url::parse`: an
unparsable URL propagates the parser's message with the
`Invalid URL format: ` prefix; otherwise the first query pair whose key
is literally `list` yields its (decoded) value, and its absence yields
the fixed could-not-find message (the spec's
`MissingPlaylistParameter`). -/
def extract_id (parsed : Except String ParsedUrl) : Except String String :=
  match parsed with
  | .error e => .error ("Invalid URL format: " ++ e)
  | .ok u =>
    match u.pairs.find? (fun p => p.1 == "list") with
    | some p => .ok p.2
    | none => .error "Could not find a 'list' parameter in the URL"

/-- The value of the first `list` query parameter of a parsed URL, if
any: the claims' notion of "the first parameter literally named list in
encounter order". -/
def firstListParam (u : ParsedUrl) : Option String :=
  (u.pairs.find? (fun p => p.1 == "list")).map Prod.snd

/-- Whether the scan keeps a file on disk: non-UTF-8 names are skipped
and a UTF-8 name survives exactly when it matches some identifier. -/
def keepFile (ids : List String) (f : FsName) : Bool :=
  (fileMatch ids f).isSome || (match f with | .nonUtf8 _ => true | .utf8 _ => false)

/-- Whether a directory entry has a UTF-8-decodable name. -/
def isUtf8Name : FsName → Bool
  | .utf8 _ => true
  | .nonUtf8 _ => false

/-- Whether a file's name embeds (contains as a substring) the given
identifier; a non-UTF-8 name embeds nothing, since the code never
looks at its bytes. -/
def embedsId (f : FsName) (id : String) : Bool :=
  match f with
  | .utf8 name => containsSub name id
  | .nonUtf8 _ => false

/-- How many files of a directory listing embed the given identifier. -/
def countMatching (dir : List FsName) (id : String) : Nat :=
  (dir.filter (fun f => embedsId f id)).length

/-- The fully-reconciled directory condition exactly as the idempotence
claim words it: every file's name contains some desired identifier and
every desired identifier appears in some file's name. This is the
claim-side (spec-side) predicate, to be compared against what
`downloadSongs` actually does on such directories. -/
def fullyReconciled (songs : List Song) (files : List FsName) : Bool :=
  files.all (fun f => songs.any (fun s => embedsId f s.id))
    && songs.all (fun s => files.any (fun f => embedsId f s.id))

end YtPlay

namespace YtPlay

section Lemmas

theorem contains_iff_mem {l : List String} {a : String} :
    l.contains a = true ↔ a ∈ l :=
  List.elem_iff

theorem startsWithList_iff {hay pat : List Char} :
    startsWithList hay pat = true ↔ ∃ post, hay = pat ++ post := by
  induction pat generalizing hay with
  | nil => simp [startsWithList]
  | cons p ps ih =>
    cases hay with
    | nil => simp [startsWithList]
    | cons c cs =>
      simp only [startsWithList, Bool.and_eq_true, beq_iff_eq, ih, List.cons_append,
        List.cons.injEq]
      constructor
      · rintro ⟨rfl, post, rfl⟩
        exact ⟨post, rfl, rfl⟩
      · rintro ⟨post, rfl, rfl⟩
        exact ⟨rfl, post, rfl⟩

theorem containsList_iff {hay pat : List Char} :
    containsList hay pat = true ↔ ∃ pre post, hay = pre ++ (pat ++ post) := by
  induction hay with
  | nil =>
    simp only [containsList, startsWithList_iff]
    constructor
    · rintro ⟨post, h⟩
      exact ⟨[], post, h⟩
    · rintro ⟨pre, post, h⟩
      rcases List.append_eq_nil.mp h.symm with ⟨rfl, h2⟩
      exact ⟨post, h2.symm⟩
  | cons c cs ih =>
    simp only [containsList, Bool.or_eq_true, startsWithList_iff, ih]
    constructor
    · rintro (⟨post, h⟩ | ⟨pre, post, h⟩)
      · exact ⟨[], post, by simpa using h⟩
      · exact ⟨c :: pre, post, by simp [h]⟩
    · rintro ⟨pre, post, h⟩
      cases pre with
      | nil => exact Or.inl ⟨post, by simpa using h⟩
      | cons p ps =>
        simp only [List.cons_append, List.cons.injEq] at h
        exact Or.inr ⟨ps, post, h.2⟩

theorem containsSub_iff {hay pat : String} :
    containsSub hay pat = true ↔ ∃ pre post, hay.data = pre ++ (pat.data ++ post) := by
  simp [containsSub, containsList_iff]

/-- A name of the shape `a ++ pat ++ b` contains `pat`. -/
theorem containsSub_sandwich (a pat b : String) :
    containsSub (a ++ pat ++ b) pat = true := by
  rw [containsSub_iff]
  exact ⟨a.data, b.data, by simp [String.data_append]⟩

theorem mem_insertFound {a id : String} {l : List String} :
    a ∈ insertFound id l ↔ a = id ∨ a ∈ l := by
  unfold insertFound
  by_cases h : l.contains id = true
  · rw [if_pos h]
    have hid : id ∈ l := contains_iff_mem.mp h
    constructor
    · exact Or.inr
    · rintro (rfl | ha)
      · exact hid
      · exact ha
  · rw [if_neg h]
    simp [or_comm]

theorem mem_dedupIds {x : String} {seen l : List String} :
    x ∈ dedupIds seen l ↔ x ∈ l ∧ x ∉ seen := by
  induction l generalizing seen with
  | nil => simp [dedupIds]
  | cons a as ih =>
    unfold dedupIds
    by_cases h : seen.contains a = true
    · have ha : a ∈ seen := contains_iff_mem.mp h
      rw [if_pos h, ih]
      constructor
      · rintro ⟨hx, hs⟩
        exact ⟨List.mem_cons_of_mem _ hx, hs⟩
      · rintro ⟨hx, hs⟩
        rcases List.mem_cons.mp hx with rfl | hx2
        · exact absurd ha hs
        · exact ⟨hx2, hs⟩
    · have ha : a ∉ seen := fun hm => h (contains_iff_mem.mpr hm)
      rw [if_neg h]
      constructor
      · intro hx
        rcases List.mem_cons.mp hx with rfl | hx2
        · exact ⟨List.mem_cons_self _ _, ha⟩
        · rcases ih.mp hx2 with ⟨hxl, hxs⟩
          exact ⟨List.mem_cons_of_mem _ hxl, fun hm => hxs (List.mem_cons_of_mem _ hm)⟩
      · rintro ⟨hx, hs⟩
        rcases List.mem_cons.mp hx with rfl | hx2
        · exact List.mem_cons_self _ _
        · by_cases hxa : x = a
          · exact hxa ▸ List.mem_cons_self _ _
          · refine List.mem_cons_of_mem _ (ih.mpr ⟨hx2, ?_⟩)
            intro hm
            rcases List.mem_cons.mp hm with h1 | h2
            · exact hxa h1
            · exact hs h2

theorem mem_validIds {id : String} {songs : List Song} :
    id ∈ validIds songs ↔ ∃ s ∈ songs, s.id = id := by
  simp [validIds, mem_dedupIds, List.mem_map]

theorem keepFile_utf8_iff {ids : List String} {name : String} :
    keepFile ids (.utf8 name) = true ↔ ∃ id ∈ ids, containsSub name id = true := by
  simp [keepFile, fileMatch, List.find?_isSome]

theorem keepFile_nonUtf8 (ids : List String) (tag : Nat) :
    keepFile ids (.nonUtf8 tag) = true := by
  simp [keepFile]

theorem scanFile_kept (ids : List String) (st : ScanState) (f : FsName) :
    (scanFile ids st f).kept =
      st.kept ++ (if keepFile ids f = true then [f] else []) := by
  unfold scanFile keepFile
  cases hm : fileMatch ids f with
  | some id => cases f <;> simp
  | none => cases f <;> simp [hm]

theorem scanFile_deleted (ids : List String) (st : ScanState) (f : FsName) :
    (scanFile ids st f).deleted =
      st.deleted ++ (if keepFile ids f = true then [] else [f]) := by
  unfold scanFile keepFile
  cases hm : fileMatch ids f with
  | some id => cases f <;> simp
  | none => cases f <;> simp [hm]

theorem scanFile_found_some {ids : List String} {f : FsName} {id : String}
    (st : ScanState) (hm : fileMatch ids f = some id) :
    (scanFile ids st f).found = insertFound id st.found := by
  unfold scanFile
  rw [hm]

theorem scanFile_found_none {ids : List String} {f : FsName}
    (st : ScanState) (hm : fileMatch ids f = none) :
    (scanFile ids st f).found = st.found := by
  unfold scanFile
  rw [hm]
  cases f <;> rfl

theorem scanFoldl_kept (ids : List String) (files : List FsName) (st : ScanState) :
    (files.foldl (scanFile ids) st).kept = st.kept ++ files.filter (keepFile ids) := by
  induction files generalizing st with
  | nil => simp
  | cons f fs ih =>
    rw [List.foldl_cons, ih, scanFile_kept, List.filter_cons]
    by_cases hk : keepFile ids f = true <;> simp [hk]

theorem scanFoldl_deleted (ids : List String) (files : List FsName) (st : ScanState) :
    (files.foldl (scanFile ids) st).deleted
      = st.deleted ++ files.filter (fun f => !(keepFile ids f)) := by
  induction files generalizing st with
  | nil => simp
  | cons f fs ih =>
    rw [List.foldl_cons, ih, scanFile_deleted, List.filter_cons]
    by_cases hk : keepFile ids f = true <;> simp [hk]

theorem scanFoldl_found_mem {x : String} (ids : List String) (files : List FsName)
    (st : ScanState) :
    x ∈ (files.foldl (scanFile ids) st).found ↔
      x ∈ st.found ∨ ∃ f ∈ files, fileMatch ids f = some x := by
  induction files generalizing st with
  | nil => simp
  | cons f fs ih =>
    rw [List.foldl_cons, ih]
    cases hm : fileMatch ids f with
    | some id =>
      rw [scanFile_found_some st hm]
      simp only [mem_insertFound, List.mem_cons]
      constructor
      · rintro ((rfl | hst) | hfs)
        · exact Or.inr ⟨f, Or.inl rfl, hm⟩
        · exact Or.inl hst
        · rcases hfs with ⟨g, hg, hgm⟩
          exact Or.inr ⟨g, Or.inr hg, hgm⟩
      · rintro (hst | ⟨g, (rfl | hg), hgm⟩)
        · exact Or.inl (Or.inr hst)
        · rw [hm] at hgm
          exact Or.inl (Or.inl (Option.some.inj hgm).symm)
        · exact Or.inr ⟨g, hg, hgm⟩
    | none =>
      rw [scanFile_found_none st hm]
      simp only [List.mem_cons]
      constructor
      · rintro (hst | ⟨g, hg, hgm⟩)
        · exact Or.inl hst
        · exact Or.inr ⟨g, Or.inr hg, hgm⟩
      · rintro (hst | ⟨g, (rfl | hg), hgm⟩)
        · exact Or.inl hst
        · rw [hm] at hgm
          exact absurd hgm (by simp)
        · exact Or.inr ⟨g, hg, hgm⟩

theorem scanFiles_kept (ids : List String) (files : List FsName) :
    (scanFiles ids files).kept = files.filter (keepFile ids) := by
  simpa using scanFoldl_kept ids files ⟨[], [], []⟩

theorem scanFiles_deleted (ids : List String) (files : List FsName) :
    (scanFiles ids files).deleted = files.filter (fun f => !(keepFile ids f)) := by
  simpa using scanFoldl_deleted ids files ⟨[], [], []⟩

theorem scanFiles_found_mem {x : String} (ids : List String) (files : List FsName) :
    x ∈ (scanFiles ids files).found ↔ ∃ f ∈ files, fileMatch ids f = some x := by
  simpa using scanFoldl_found_mem ids files ⟨[], [], []⟩

theorem downloadSongs_kept (songs : List Song) (files : List FsName) :
    (downloadSongs songs files).keptFiles
      = files.filter (keepFile (validIds songs)) := by
  unfold downloadSongs
  simp [scanFiles_kept]

theorem downloadSongs_deleted (songs : List Song) (files : List FsName) :
    (downloadSongs songs files).deletedFiles
      = files.filter (fun f => !(keepFile (validIds songs) f)) := by
  unfold downloadSongs
  simp [scanFiles_deleted]

theorem downloadSongs_missing (songs : List Song) (files : List FsName) :
    (downloadSongs songs files).missingSongs
      = songs.filter
          (fun s => !((scanFiles (validIds songs) files).found.contains s.id)) := by
  unfold downloadSongs
  simp

theorem downloadSongs_missingIds (songs : List Song) (files : List FsName) :
    (downloadSongs songs files).missingIds
      = (downloadSongs songs files).missingSongs.map Song.id := rfl

theorem downloadSongs_batchUrls (songs : List Song) (files : List FsName) :
    (downloadSongs songs files).batchUrls
      = (downloadSongs songs files).missingIds.map itemUrl := rfl

theorem downloadSongs_spawned (songs : List Song) (files : List FsName) :
    (downloadSongs songs files).spawned
      = !((downloadSongs songs files).missingIds.isEmpty) := rfl

theorem reconcileFull_eq (songs : List Song) (files : List FsName) (ext : String) :
    reconcileFull songs files ext
      = (downloadSongs songs files).keptFiles
          ++ downloaderOutput (downloadSongs songs files).missingSongs ext := rfl

/-- The found set depends on the initial state only through its found
component. -/
theorem scanFoldl_found_congr (ids : List String) (files : List FsName)
    (st st2 : ScanState) (h : st.found = st2.found) :
    (files.foldl (scanFile ids) st).found = (files.foldl (scanFile ids) st2).found := by
  induction files generalizing st st2 with
  | nil => exact h
  | cons f fs ih =>
    rw [List.foldl_cons, List.foldl_cons]
    apply ih
    cases hm : fileMatch ids f with
    | some id => rw [scanFile_found_some st hm, scanFile_found_some st2 hm, h]
    | none => rw [scanFile_found_none st hm, scanFile_found_none st2 hm, h]

/-- Files with non-UTF-8 names contribute nothing to the found set. -/
theorem scanFoldl_found_utf8only (ids : List String) (files : List FsName)
    (st : ScanState) :
    ((files.filter isUtf8Name).foldl (scanFile ids) st).found
      = (files.foldl (scanFile ids) st).found := by
  induction files generalizing st with
  | nil => rfl
  | cons f fs ih =>
    cases f with
    | utf8 name =>
      rw [List.filter_cons]
      simp only [isUtf8Name, if_pos]
      rw [List.foldl_cons, List.foldl_cons]
      exact ih _
    | nonUtf8 tag =>
      rw [List.filter_cons]
      simp only [isUtf8Name, Bool.false_eq_true, if_neg, not_false_eq_true]
      rw [List.foldl_cons, ih st]
      exact scanFoldl_found_congr ids fs st _
        (@scanFile_found_none ids (FsName.nonUtf8 tag) st rfl).symm

/-- A downloaded file's name `<title> [<id>].<ext>` embeds its
identifier. -/
theorem downloaderOutput_embeds (s : Song) (ext : String) :
    embedsId (FsName.utf8 (s.title ++ " [" ++ s.id ++ "]." ++ ext)) s.id = true := by
  simp only [embedsId]
  rw [containsSub_iff]
  exact ⟨s.title.data ++ " [".data, "].".data ++ ext.data,
    by simp [String.data_append, List.append_assoc]⟩

theorem extract_id_ok (u : ParsedUrl) :
    extract_id (.ok u)
      = match u.pairs.find? (fun p => p.1 == "list") with
        | some p => .ok p.2
        | none => .error "Could not find a 'list' parameter in the URL" := rfl

/-- Every file the downloader writes has a UTF-8 name. -/
theorem downloaderOutput_all_utf8 (missing : List Song) (ext : String) :
    (downloaderOutput missing ext).filter (fun f => !(isUtf8Name f)) = [] := by
  induction missing with
  | nil => rfl
  | cons s ss ih =>
    simp only [downloaderOutput, List.map_cons, List.filter_cons] at ih ⊢
    simp only [isUtf8Name, Bool.not_true, Bool.false_eq_true, if_false]
    exact ih

end Lemmas

section Claims

/-- C4: reconciliation never deletes a file whose UTF-8 name contains a
currently-desired identifier as a substring — for every desired entry
sequence and directory state, including sequences where one identifier
is a substring of another identifier's text. -/
theorem c4_never_deletes_matching (songs : List Song) (files : List FsName)
    (name : String) (s : Song) (hs : s ∈ songs)
    (hc : containsSub name s.id = true) :
    FsName.utf8 name ∉ (downloadSongs songs files).deletedFiles := by
  rw [downloadSongs_deleted]
  intro hmem
  rcases List.mem_filter.mp hmem with ⟨-, hkeep⟩
  have hk : keepFile (validIds songs) (.utf8 name) = true :=
    keepFile_utf8_iff.mpr ⟨s.id, mem_validIds.mpr ⟨s, hs, rfl⟩, hc⟩
  rw [hk] at hkeep
  exact absurd hkeep (by simp)

/-- Witness for C4 at a concrete input whose desired identifiers are
substrings of one another (`ab` and `abc`). -/
theorem c4_never_deletes_matching_witness :
    FsName.utf8 "x [ab].mp3"
      ∉ (downloadSongs [⟨"ab", "t1"⟩, ⟨"abc", "t2"⟩]
          [.utf8 "x [ab].mp3"]).deletedFiles :=
  c4_never_deletes_matching [⟨"ab", "t1"⟩, ⟨"abc", "t2"⟩] [.utf8 "x [ab].mp3"]
    "x [ab].mp3" ⟨"ab", "t1"⟩ (by decide) (by decide)

/-- C5 counterexample: with the empty desired sequence and a directory
holding a single file with a non-UTF-8 name, reconciliation deletes
nothing — the file survives — so "deletes every file in the directory"
fails as stated. (No batch is invoked, as the claim says.) -/
theorem c5_counterexample :
    (downloadSongs [] [FsName.nonUtf8 0]).deletedFiles = []
    ∧ (downloadSongs [] [FsName.nonUtf8 0]).keptFiles = [FsName.nonUtf8 0]
    ∧ ¬ (FsName.nonUtf8 0 ∈ (downloadSongs [] [FsName.nonUtf8 0]).deletedFiles) := by
  refine ⟨by decide, by decide, by decide⟩

/-- C5 (amended): with the empty desired sequence, reconciliation
deletes exactly the files whose names decode as UTF-8, keeps the files
with non-decodable names (they are skipped), computes an empty missing
set and spawns no downloader subprocess. -/
theorem c5_empty_playlist (files : List FsName) :
    (downloadSongs [] files).deletedFiles = files.filter isUtf8Name
    ∧ (downloadSongs [] files).keptFiles = files.filter (fun f => !(isUtf8Name f))
    ∧ (downloadSongs [] files).missingIds = []
    ∧ (downloadSongs [] files).spawned = false := by
  refine ⟨?_, ?_, rfl, rfl⟩
  · rw [downloadSongs_deleted]
    apply List.filter_congr
    intro f _
    cases f <;> rfl
  · rw [downloadSongs_kept]
    apply List.filter_congr
    intro f _
    cases f <;> rfl

/-- C6: when the batch-download subprocess exits with a non-zero
status, `download_songs` fails with the partial-download error
(`yt-dlp failed to download some files`), and whatever files the
subprocess wrote remain in the directory — no rollback. -/
theorem c6_partial_download_failure (songs : List Song)
    (files written : List FsName) (exitCode : Nat)
    (hspawn : (downloadSongs songs files).spawned = true)
    (hexit : exitCode ≠ 0) :
    (downloadSongsRun songs files written exitCode).error
        = some "yt-dlp failed to download some files"
    ∧ ∀ f ∈ written, f ∈ (downloadSongsRun songs files written exitCode).dirAfter := by
  have h1 : downloadSongsRun songs files written exitCode
      = { dirAfter := (downloadSongs songs files).keptFiles ++ written,
          spawned := true,
          error := some "yt-dlp failed to download some files" } := by
    simp [downloadSongsRun, hspawn, hexit]
  rw [h1]
  exact ⟨rfl, fun f hf => List.mem_append_right _ hf⟩

/-- Witness for C6: one desired entry, an empty directory, the
subprocess writes one file and exits with status 1. -/
theorem c6_partial_download_failure_witness :
    (downloadSongsRun [⟨"idA", "t"⟩] [] [FsName.utf8 "A [idA].opus"] 1).error
        = some "yt-dlp failed to download some files"
    ∧ FsName.utf8 "A [idA].opus"
        ∈ (downloadSongsRun [⟨"idA", "t"⟩] [] [FsName.utf8 "A [idA].opus"] 1).dirAfter :=
  ⟨(c6_partial_download_failure [⟨"idA", "t"⟩] [] [FsName.utf8 "A [idA].opus"] 1
      (by decide) (by decide)).1,
    (c6_partial_download_failure [⟨"idA", "t"⟩] [] [FsName.utf8 "A [idA].opus"] 1
      (by decide) (by decide)).2 _ (by decide)⟩

/-- C7: with an existing cache directory and the refresh flag not set,
`run` creates nothing, performs no fetch-and-reconcile and no
deletions, leaves the directory contents unchanged, and invokes
playback unconditionally. -/
theorem c7_cached_no_refresh (songs : List Song) (dir : List FsName) (ext : String) :
    runOrchestration true false songs dir ext
      = { createdDir := false
          fetchedAndReconciled := false
          deletions := []
          dirAfter := dir
          played := true } := rfl

/-- C9: a file whose name is not valid UTF-8 is skipped by the scan for
every desired entry sequence: it is kept, never deleted, and the found
set — hence the missing set — is the same as if only the UTF-8-named
files were present. -/
theorem c9_nonUtf8_skipped (songs : List Song) (files : List FsName) (tag : Nat)
    (hmem : FsName.nonUtf8 tag ∈ files) :
    FsName.nonUtf8 tag ∈ (downloadSongs songs files).keptFiles
    ∧ FsName.nonUtf8 tag ∉ (downloadSongs songs files).deletedFiles
    ∧ (scanFiles (validIds songs) (files.filter isUtf8Name)).found
        = (scanFiles (validIds songs) files).found := by
  refine ⟨?_, ?_, ?_⟩
  · rw [downloadSongs_kept]
    exact List.mem_filter.mpr ⟨hmem, keepFile_nonUtf8 _ tag⟩
  · rw [downloadSongs_deleted]
    intro hdel
    rcases List.mem_filter.mp hdel with ⟨-, hk⟩
    rw [keepFile_nonUtf8 _ tag] at hk
    exact absurd hk (by simp)
  · exact scanFoldl_found_utf8only _ files ⟨[], [], []⟩

/-- Witness for C9 at a concrete directory holding a non-UTF-8 name
next to a matching and a non-matching UTF-8 name. -/
theorem c9_nonUtf8_skipped_witness :
    FsName.nonUtf8 7
      ∈ (downloadSongs [⟨"idA", "t"⟩]
          [.nonUtf8 7, .utf8 "x [idA].mp3", .utf8 "junk"]).keptFiles
    ∧ FsName.nonUtf8 7
        ∉ (downloadSongs [⟨"idA", "t"⟩]
            [.nonUtf8 7, .utf8 "x [idA].mp3", .utf8 "junk"]).deletedFiles :=
  ⟨(c9_nonUtf8_skipped [⟨"idA", "t"⟩]
      [.nonUtf8 7, .utf8 "x [idA].mp3", .utf8 "junk"] 7 (by decide)).1,
    (c9_nonUtf8_skipped [⟨"idA", "t"⟩]
      [.nonUtf8 7, .utf8 "x [idA].mp3", .utf8 "junk"] 7 (by decide)).2.1⟩

/-- C8: for every URL that parses and whose query pairs contain a
parameter literally named `list`, extraction returns the decoded value
of the first such parameter in encounter order (here under the claim's
non-emptiness assumption), whatever other parameters are present; for
every parsed URL without a `list` parameter it fails with the
could-not-find message (the spec's `MissingPlaylistParameter`). -/
theorem c8_extract_id_list_param :
    (∀ (u : ParsedUrl) (x : String), firstListParam u = some x → x ≠ "" →
        extract_id (.ok u) = .ok x)
    ∧ (∀ u : ParsedUrl, firstListParam u = none →
        extract_id (.ok u) = .error "Could not find a 'list' parameter in the URL") := by
  constructor
  · intro u x hfind hx
    rw [extract_id_ok]
    unfold firstListParam at hfind
    cases hf : u.pairs.find? (fun p => p.1 == "list") with
    | none =>
      rw [hf] at hfind
      exact absurd hfind (by simp)
    | some p =>
      rw [hf] at hfind
      have hp : p.2 = x := by simpa using hfind
      exact congrArg Except.ok hp
  · intro u hnone
    rw [extract_id_ok]
    unfold firstListParam at hnone
    cases hf : u.pairs.find? (fun p => p.1 == "list") with
    | none => rfl
    | some p =>
      rw [hf] at hnone
      exact absurd hnone (by simp)

/-- Witness for C8: a query with a decoded `list` value surrounded by
other parameters, and a query with no `list` parameter. -/
theorem c8_extract_id_list_param_witness :
    extract_id (.ok ⟨some "a=1&list=PL%20123&b=2"⟩) = .ok "PL 123"
    ∧ extract_id (.ok ⟨some "v=abc&t=5s"⟩)
        = .error "Could not find a 'list' parameter in the URL" :=
  ⟨c8_extract_id_list_param.1 ⟨some "a=1&list=PL%20123&b=2"⟩ "PL 123"
      (by decide) (by decide),
    c8_extract_id_list_param.2 ⟨some "v=abc&t=5s"⟩ (by decide)⟩

/-- C10: when the first `list` parameter of a parsed URL has an empty
value, extraction succeeds and returns the empty string — no
non-emptiness or format validation is applied to the value. -/
theorem c10_empty_list_value (u : ParsedUrl)
    (h : firstListParam u = some "") :
    extract_id (.ok u) = .ok "" := by
  rw [extract_id_ok]
  unfold firstListParam at h
  cases hf : u.pairs.find? (fun p => p.1 == "list") with
  | none =>
    rw [hf] at h
    exact absurd h (by simp)
  | some p =>
    rw [hf] at h
    have hp : p.2 = "" := by simpa using h
    exact congrArg Except.ok hp

/-- Witness for C10 at the query string `list=`. -/
theorem c10_empty_list_value_witness :
    extract_id (.ok ⟨some "list="⟩) = .ok "" :=
  c10_empty_list_value ⟨some "list="⟩ (by decide)

/-- C2: for desired entries `{⟨A, A title⟩, ⟨B, B title⟩}` and a
directory holding exactly `Old [Z].mp3` and `B song [B].mp3` — where
the stale name contains neither desired identifier and the `B` file's
name does not happen to contain `A` — reconciliation deletes the stale
file, keeps the `B` file, and invokes the downloader batch with exactly
one item URL, the one constructed for `A`. -/
theorem c2_two_entry_reconcile (a b z ta tb : String)
    (hza : containsSub ("Old [" ++ z ++ "].mp3") a = false)
    (hzb : containsSub ("Old [" ++ z ++ "].mp3") b = false)
    (hba : containsSub ("B song [" ++ b ++ "].mp3") a = false) :
    (downloadSongs [⟨a, ta⟩, ⟨b, tb⟩]
        [.utf8 ("Old [" ++ z ++ "].mp3"),
         .utf8 ("B song [" ++ b ++ "].mp3")]).deletedFiles
        = [.utf8 ("Old [" ++ z ++ "].mp3")]
    ∧ (downloadSongs [⟨a, ta⟩, ⟨b, tb⟩]
        [.utf8 ("Old [" ++ z ++ "].mp3"),
         .utf8 ("B song [" ++ b ++ "].mp3")]).keptFiles
        = [.utf8 ("B song [" ++ b ++ "].mp3")]
    ∧ (downloadSongs [⟨a, ta⟩, ⟨b, tb⟩]
        [.utf8 ("Old [" ++ z ++ "].mp3"),
         .utf8 ("B song [" ++ b ++ "].mp3")]).batchUrls
        = [itemUrl a] := by
  have hb2 : containsSub ("B song [" ++ b ++ "].mp3") b = true :=
    containsSub_sandwich "B song [" b "].mp3"
  have hab : a ≠ b := by
    intro h
    rw [h] at hba
    rw [hba] at hb2
    exact Bool.noConfusion hb2
  have hmem_a : a ∈ validIds [⟨a, ta⟩, ⟨b, tb⟩] :=
    mem_validIds.mpr ⟨⟨a, ta⟩, by simp, rfl⟩
  have hmem_b : b ∈ validIds [⟨a, ta⟩, ⟨b, tb⟩] :=
    mem_validIds.mpr ⟨⟨b, tb⟩, by simp, rfl⟩
  have hid_cases : ∀ id ∈ validIds [⟨a, ta⟩, ⟨b, tb⟩], id = a ∨ id = b := by
    intro id hid
    rcases mem_validIds.mp hid with ⟨s, hsmem, hsid⟩
    rcases (show s = (⟨a, ta⟩ : Song) ∨ s = ⟨b, tb⟩ by simpa using hsmem)
      with rfl | rfl
    · exact Or.inl hsid.symm
    · exact Or.inr hsid.symm
  have hk1 : keepFile (validIds [⟨a, ta⟩, ⟨b, tb⟩])
      (.utf8 ("Old [" ++ z ++ "].mp3")) = false := by
    cases hkc : keepFile (validIds [⟨a, ta⟩, ⟨b, tb⟩])
        (.utf8 ("Old [" ++ z ++ "].mp3")) with
    | false => rfl
    | true =>
      exfalso
      rcases keepFile_utf8_iff.mp hkc with ⟨id, hid, hc⟩
      rcases hid_cases id hid with rfl | rfl
      · rw [hza] at hc
        exact Bool.noConfusion hc
      · rw [hzb] at hc
        exact Bool.noConfusion hc
  have hk2 : keepFile (validIds [⟨a, ta⟩, ⟨b, tb⟩])
      (.utf8 ("B song [" ++ b ++ "].mp3")) = true :=
    keepFile_utf8_iff.mpr ⟨b, hmem_b, hb2⟩
  have fm1 : fileMatch (validIds [⟨a, ta⟩, ⟨b, tb⟩])
      (.utf8 ("Old [" ++ z ++ "].mp3")) = none := by
    simp only [fileMatch]
    rw [List.find?_eq_none]
    intro id hid
    rcases hid_cases id hid with rfl | rfl
    · rw [hza]
      simp
    · rw [hzb]
      simp
  have fm2 : fileMatch (validIds [⟨a, ta⟩, ⟨b, tb⟩])
      (.utf8 ("B song [" ++ b ++ "].mp3")) = some b := by
    have hsome : (List.find? (fun id => containsSub ("B song [" ++ b ++ "].mp3") id)
        (validIds [⟨a, ta⟩, ⟨b, tb⟩])).isSome :=
      List.find?_isSome.mpr ⟨b, hmem_b, hb2⟩
    obtain ⟨x, hx⟩ := Option.isSome_iff_exists.mp hsome
    have hxc : containsSub ("B song [" ++ b ++ "].mp3") x = true := List.find?_some hx
    have hxm : x ∈ validIds [⟨a, ta⟩, ⟨b, tb⟩] := List.mem_of_find?_eq_some hx
    rcases hid_cases x hxm with rfl | rfl
    · rw [hba] at hxc
      exact Bool.noConfusion hxc
    · simpa only [fileMatch] using hx
  have hbfound : b ∈ (scanFiles (validIds [⟨a, ta⟩, ⟨b, tb⟩])
      [.utf8 ("Old [" ++ z ++ "].mp3"), .utf8 ("B song [" ++ b ++ "].mp3")]).found :=
    (scanFiles_found_mem _ _).mpr
      ⟨.utf8 ("B song [" ++ b ++ "].mp3"), by simp, fm2⟩
  have hafound : a ∉ (scanFiles (validIds [⟨a, ta⟩, ⟨b, tb⟩])
      [.utf8 ("Old [" ++ z ++ "].mp3"), .utf8 ("B song [" ++ b ++ "].mp3")]).found := by
    intro hmem
    rcases (scanFiles_found_mem _ _).mp hmem with ⟨f, hf, hfm⟩
    rcases (show f = FsName.utf8 ("Old [" ++ z ++ "].mp3")
        ∨ f = FsName.utf8 ("B song [" ++ b ++ "].mp3") by simpa using hf) with rfl | rfl
    · rw [fm1] at hfm
      exact Option.noConfusion hfm
    · rw [fm2] at hfm
      exact hab (Option.some.inj hfm).symm
  have hca : (scanFiles (validIds [⟨a, ta⟩, ⟨b, tb⟩])
      [.utf8 ("Old [" ++ z ++ "].mp3"),
       .utf8 ("B song [" ++ b ++ "].mp3")]).found.contains a = false := by
    cases hc : (scanFiles (validIds [⟨a, ta⟩, ⟨b, tb⟩])
        [.utf8 ("Old [" ++ z ++ "].mp3"),
         .utf8 ("B song [" ++ b ++ "].mp3")]).found.contains a with
    | false => rfl
    | true => exact absurd (contains_iff_mem.mp hc) hafound
  have hcb : (scanFiles (validIds [⟨a, ta⟩, ⟨b, tb⟩])
      [.utf8 ("Old [" ++ z ++ "].mp3"),
       .utf8 ("B song [" ++ b ++ "].mp3")]).found.contains b = true :=
    contains_iff_mem.mpr hbfound
  refine ⟨?_, ?_, ?_⟩
  · rw [downloadSongs_deleted]
    simp [List.filter_cons, hk1, hk2]
  · rw [downloadSongs_kept]
    simp [List.filter_cons, hk1, hk2]
  · rw [downloadSongs_batchUrls, downloadSongs_missingIds, downloadSongs_missing]
    simp [List.filter_cons, hca, hcb, hafound, hbfound, itemUrl]

/-- Witness for C2 with identifiers `idA`, `idB`, `idZ`. -/
theorem c2_two_entry_reconcile_witness :
    (downloadSongs [⟨"idA", "A title"⟩, ⟨"idB", "B title"⟩]
        [.utf8 ("Old [" ++ "idZ" ++ "].mp3"),
         .utf8 ("B song [" ++ "idB" ++ "].mp3")]).deletedFiles
        = [.utf8 ("Old [" ++ "idZ" ++ "].mp3")]
    ∧ (downloadSongs [⟨"idA", "A title"⟩, ⟨"idB", "B title"⟩]
        [.utf8 ("Old [" ++ "idZ" ++ "].mp3"),
         .utf8 ("B song [" ++ "idB" ++ "].mp3")]).keptFiles
        = [.utf8 ("B song [" ++ "idB" ++ "].mp3")]
    ∧ (downloadSongs [⟨"idA", "A title"⟩, ⟨"idB", "B title"⟩]
        [.utf8 ("Old [" ++ "idZ" ++ "].mp3"),
         .utf8 ("B song [" ++ "idB" ++ "].mp3")]).batchUrls
        = [itemUrl "idA"] :=
  c2_two_entry_reconcile "idA" "idB" "idZ" "A title" "B title"
    (by decide) (by decide) (by decide)

/-- C1 counterexample: desired entry `idA`, directory holding two files
that both embed `idA` plus one file with a non-UTF-8 name. After
reconciliation the directory holds two files matching the entry (not
exactly one) and the non-UTF-8 file — which embeds no identifier — is
still present rather than removed. -/
theorem c1_counterexample :
    countMatching
        (reconcileFull [⟨"idA", "t"⟩]
          [.utf8 "x [idA].mp3", .utf8 "y [idA].mp3", .nonUtf8 3] "opus") "idA" = 2
    ∧ FsName.nonUtf8 3
        ∈ reconcileFull [⟨"idA", "t"⟩]
            [.utf8 "x [idA].mp3", .utf8 "y [idA].mp3", .nonUtf8 3] "opus"
    ∧ ¬ (countMatching
          (reconcileFull [⟨"idA", "t"⟩]
            [.utf8 "x [idA].mp3", .utf8 "y [idA].mp3", .nonUtf8 3] "opus") "idA" = 1) := by
  refine ⟨by decide, by decide, by decide⟩

/-- C1 (amended): after a successful reconciliation — with the
downloader writing one `<title> [<id>].<ext>` file per missing entry —
the directory contains at least one file embedding each desired
identifier, every UTF-8-named file embeds some desired identifier, and
the files with non-UTF-8 names are exactly those that were already
present (skipped, not removed). -/
theorem c1_invariant_amended (songs : List Song) (files : List FsName) (ext : String) :
    (∀ s ∈ songs, ∃ f ∈ reconcileFull songs files ext, embedsId f s.id = true)
    ∧ (∀ name : String, FsName.utf8 name ∈ reconcileFull songs files ext →
        ∃ s ∈ songs, containsSub name s.id = true)
    ∧ (reconcileFull songs files ext).filter (fun f => !(isUtf8Name f))
        = files.filter (fun f => !(isUtf8Name f)) := by
  refine ⟨?_, ?_, ?_⟩
  · intro s hs
    by_cases hfound : s.id ∈ (scanFiles (validIds songs) files).found
    · rcases (scanFiles_found_mem _ _).mp hfound with ⟨f, hf, hfm⟩
      refine ⟨f, ?_, ?_⟩
      · have hkeep : keepFile (validIds songs) f = true := by
          unfold keepFile
          rw [hfm]
          cases f <;> simp
        rw [reconcileFull_eq]
        refine List.mem_append_left _ ?_
        rw [downloadSongs_kept]
        exact List.mem_filter.mpr ⟨hf, hkeep⟩
      · cases f with
        | nonUtf8 tag => exact absurd hfm (by simp [fileMatch])
        | utf8 name =>
          have hc : containsSub name s.id = true :=
            List.find?_some (by simpa [fileMatch] using hfm)
          simpa [embedsId] using hc
    · have hmiss : s ∈ (downloadSongs songs files).missingSongs := by
        rw [downloadSongs_missing]
        refine List.mem_filter.mpr ⟨hs, ?_⟩
        cases hc : (scanFiles (validIds songs) files).found.contains s.id with
        | false => rfl
        | true => exact absurd (contains_iff_mem.mp hc) hfound
      refine ⟨FsName.utf8 (s.title ++ " [" ++ s.id ++ "]." ++ ext), ?_,
        downloaderOutput_embeds s ext⟩
      rw [reconcileFull_eq]
      refine List.mem_append_right _ ?_
      unfold downloaderOutput
      exact List.mem_map.mpr ⟨s, hmiss, rfl⟩
  · intro name hmem
    rw [reconcileFull_eq] at hmem
    rcases List.mem_append.mp hmem with hk | hd
    · rw [downloadSongs_kept] at hk
      rcases List.mem_filter.mp hk with ⟨-, hkeep⟩
      rcases keepFile_utf8_iff.mp hkeep with ⟨id, hid, hc⟩
      rcases mem_validIds.mp hid with ⟨s, hsmem, rfl⟩
      exact ⟨s, hsmem, hc⟩
    · unfold downloaderOutput at hd
      rcases List.mem_map.mp hd with ⟨s, hsmem, heq⟩
      have hname : s.title ++ " [" ++ s.id ++ "]." ++ ext = name :=
        FsName.utf8.inj heq
      have hsongs : s ∈ songs := by
        rw [downloadSongs_missing] at hsmem
        exact (List.mem_filter.mp hsmem).1
      refine ⟨s, hsongs, ?_⟩
      rw [← hname]
      simpa [embedsId] using downloaderOutput_embeds s ext
  · rw [reconcileFull_eq, List.filter_append, downloaderOutput_all_utf8,
      List.append_nil, downloadSongs_kept, List.filter_filter]
    apply List.filter_congr
    intro f _
    cases f with
    | utf8 name => simp [isUtf8Name]
    | nonUtf8 tag => simp [isUtf8Name, keepFile, fileMatch]

/-- Witness for C1 (amended) on a one-entry playlist with a stale file
and a skipped non-UTF-8 file. -/
theorem c1_invariant_amended_witness :
    (∃ f ∈ reconcileFull [⟨"idA", "t"⟩] [.utf8 "junk", .nonUtf8 2] "opus",
        embedsId f "idA" = true)
    ∧ (reconcileFull [⟨"idA", "t"⟩] [.utf8 "junk", .nonUtf8 2] "opus").filter
          (fun f => !(isUtf8Name f))
        = [FsName.utf8 "junk", FsName.nonUtf8 2].filter (fun f => !(isUtf8Name f)) :=
  ⟨(c1_invariant_amended [⟨"idA", "t"⟩] [.utf8 "junk", .nonUtf8 2] "opus").1
      ⟨"idA", "t"⟩ (by decide),
    (c1_invariant_amended [⟨"idA", "t"⟩] [.utf8 "junk", .nonUtf8 2] "opus").2.2⟩

/-- C3 counterexample: desired entries `idA` and `idB`, directory
holding the single file `x [idA] [idB].mp3`. The directory is
fully reconciled in the claim's sense (the file's name contains a
desired identifier; both identifiers appear in some file's name), yet a
reconciliation pass records only the first matching identifier for the
file, computes a non-empty missing set and spawns the downloader. -/
theorem c3_counterexample :
    fullyReconciled [⟨"idA", "ta"⟩, ⟨"idB", "tb"⟩] [.utf8 "x [idA] [idB].mp3"] = true
    ∧ (downloadSongs [⟨"idA", "ta"⟩, ⟨"idB", "tb"⟩]
        [.utf8 "x [idA] [idB].mp3"]).spawned = true
    ∧ (downloadSongs [⟨"idA", "ta"⟩, ⟨"idB", "tb"⟩]
        [.utf8 "x [idA] [idB].mp3"]).missingIds ≠ [] := by
  refine ⟨by decide, by decide, by decide⟩

/-- C3 (amended): when every file's name contains some desired
identifier, a reconciliation pass deletes nothing; and when moreover
every desired identifier appears in some file whose name contains no
other desired identifier (one file per identifier, unambiguously), the
missing set is empty and no downloader subprocess is spawned. The
strengthening is needed because the scan records only the first
matching identifier per file. -/
theorem c3_idempotent_amended (songs : List Song) (files : List FsName)
    (hall : ∀ f ∈ files, ∃ s ∈ songs, embedsId f s.id = true) :
    (downloadSongs songs files).deletedFiles = []
    ∧ ((∀ s ∈ songs, ∃ f ∈ files, embedsId f s.id = true ∧
          ∀ s2 ∈ songs, s2.id ≠ s.id → embedsId f s2.id = false) →
        (downloadSongs songs files).missingIds = []
        ∧ (downloadSongs songs files).spawned = false) := by
  constructor
  · rw [downloadSongs_deleted, List.filter_eq_nil_iff]
    intro f hf
    rcases hall f hf with ⟨s, hs, he⟩
    cases f with
    | nonUtf8 tag => exact absurd he (by simp [embedsId])
    | utf8 name =>
      have hc : containsSub name s.id = true := by simpa [embedsId] using he
      have hkeep : keepFile (validIds songs) (.utf8 name) = true :=
        keepFile_utf8_iff.mpr ⟨s.id, mem_validIds.mpr ⟨s, hs, rfl⟩, hc⟩
      rw [hkeep]
      simp
  · intro huniq
    have hfound : ∀ s ∈ songs, s.id ∈ (scanFiles (validIds songs) files).found := by
      intro s hs
      rcases huniq s hs with ⟨f, hf, hemb, hout⟩
      cases f with
      | nonUtf8 tag => exact absurd hemb (by simp [embedsId])
      | utf8 name =>
        refine (scanFiles_found_mem _ _).mpr ⟨.utf8 name, hf, ?_⟩
        have hsid : s.id ∈ validIds songs := mem_validIds.mpr ⟨s, hs, rfl⟩
        have hemb2 : containsSub name s.id = true := by simpa [embedsId] using hemb
        have hsome : (List.find? (fun id => containsSub name id)
            (validIds songs)).isSome :=
          List.find?_isSome.mpr ⟨s.id, hsid, hemb2⟩
        obtain ⟨x, hx⟩ := Option.isSome_iff_exists.mp hsome
        have hxc : containsSub name x = true := List.find?_some hx
        have hxm : x ∈ validIds songs := List.mem_of_find?_eq_some hx
        rcases mem_validIds.mp hxm with ⟨s2, hs2, rfl⟩
        by_cases hxe : s2.id = s.id
        · simp only [fileMatch]
          rw [hx, hxe]
        · have hz := hout s2 hs2 hxe
          rw [show embedsId (FsName.utf8 name) s2.id
              = containsSub name s2.id from rfl] at hz
          rw [hz] at hxc
          exact Bool.noConfusion hxc
    have hmiss : (downloadSongs songs files).missingSongs = [] := by
      rw [downloadSongs_missing, List.filter_eq_nil_iff]
      intro s hs
      rw [contains_iff_mem.mpr (hfound s hs)]
      simp
    refine ⟨?_, ?_⟩
    · rw [downloadSongs_missingIds, hmiss]
      rfl
    · rw [downloadSongs_spawned, downloadSongs_missingIds, hmiss]
      rfl

/-- Witness for C3 (amended) on a one-entry playlist whose single file
embeds its identifier and nothing else. -/
theorem c3_idempotent_amended_witness :
    (downloadSongs [⟨"idA", "t"⟩] [.utf8 "x [idA].mp3"]).deletedFiles = []
    ∧ (downloadSongs [⟨"idA", "t"⟩] [.utf8 "x [idA].mp3"]).missingIds = []
    ∧ (downloadSongs [⟨"idA", "t"⟩] [.utf8 "x [idA].mp3"]).spawned = false :=
  ⟨(c3_idempotent_amended [⟨"idA", "t"⟩] [.utf8 "x [idA].mp3"] (by decide)).1,
    ((c3_idempotent_amended [⟨"idA", "t"⟩] [.utf8 "x [idA].mp3"] (by decide)).2
      (by decide)).1,
    ((c3_idempotent_amended [⟨"idA", "t"⟩] [.utf8 "x [idA].mp3"] (by decide)).2
      (by decide)).2⟩

end Claims

/- Sanity checks (concrete evaluation of the embedding). -/

example :
    queryPairsOf "a=1&list=PL123&b=2"
      = [("a", "1"), ("list", "PL123"), ("b", "2")] := by decide

example :
    extract_id (.ok ⟨some "a=1&list=PL%20123&b=2"⟩) = .ok "PL 123" := by decide

example : extract_id (.ok ⟨some "v=abc"⟩)
    = .error "Could not find a 'list' parameter in the URL" := by decide

example : extract_id (.ok ⟨some "list="⟩) = .ok "" := by decide

example : containsSub "B song [idB].mp3" "idB" = true := by decide

example : containsSub "Old [idZ].mp3" "idA" = false := by decide

example :
    (downloadSongs [⟨"idA", "A title"⟩, ⟨"idB", "B title"⟩]
      [.utf8 "Old [idZ].mp3", .utf8 "B song [idB].mp3"]).deletedFiles
      = [.utf8 "Old [idZ].mp3"] := by decide

example :
    (downloadSongs [⟨"idA", "A title"⟩, ⟨"idB", "B title"⟩]
      [.utf8 "Old [idZ].mp3", .utf8 "B song [idB].mp3"]).batchUrls
      = ["https://www.youtube.com/watch?v=idA"] := by decide

end YtPlay
